import Mathlib

/-!
# CyberpunkRPS: the round and match state machine of `script.js`

A shallow embedding of the class `CyberpunkRPS` (rock / paper / scissors against a
random opponent, best of `maxRounds`), followed by theorems about it.

Conventions of the embedding.

* A JavaScript value that is either a string or `undefined` is a `Val`
  (`Option String`, `none` standing for `undefined`); strict equality `===` on
  such values is equality of `Val`.
* The fields `playerScore`, `computerScore`, `currentRound`, `maxRounds` are
  natural numbers (they start at 0, 0, 1, 5 and only `++` is applied to them).
* A value returned by `Math.random()` is a double with `0 ≤ r < 1`.  Every such
  double is `m / 2 ^ k` for naturals `m < 2 ^ 53`, `k ≤ 1074`, `m < 2 ^ k`, and
  every such quotient is a double; a draw is given by the pair `m`, `k`.  The
  product `r * 3` is the exact product rounded to the nearest double, a tie going
  to the double with even significand (IEEE 754 binary64, the arithmetic of
  JavaScript numbers).
* `playRound` is an `async` method with three `await this.delay(ms)` points.  A
  call runs synchronously up to its first `await`; what is left of it is a
  `Round` record kept in `State.pending` with the time at which its timer is due.
  The scheduler resumes the pending round whose timer is due first.
* DOM elements looked up in the constructor are taken to exist, so the
  presentation calls (`updateStatus`, `showPlayerChoice`, ...) do not throw; of
  the presentation only the `disabled` flag of the choice buttons and the
  game-over modal are kept.  `playSound` catches its own errors.
-/

namespace CyberpunkRPS

/-- A JavaScript value that is a string or `undefined` (`none`). -/
abbrev Val := Option String

/-- Field `this.choices` set in the constructor. -/
def choices : List String := ["rock", "paper", "scissors"]

/-- Object literal `winConditions` of `determineWinner`, read as
`winConditions[playerChoice]`.  The result is the own entry of the key, `none`
otherwise.  (`undefined` is converted to the key "undefined", which has no entry.
A name inherited from `Object.prototype`, such as "constructor", yields a function
or object, which like `undefined` is never `===` to a string; `none` stands for
that result too, which is exact whenever it is compared with a string.) -/
def winConditions (playerChoice : Val) : Val :=
  match playerChoice with
  | some "rock" => some "scissors"
  | some "paper" => some "rock"
  | some "scissors" => some "paper"
  | _ => none

/-- Method `determineWinner(playerChoice, computerChoice)`. -/
def determineWinner (playerChoice computerChoice : Val) : String :=
  if playerChoice = computerChoice then "draw"
  else if winConditions playerChoice = computerChoice then "player" else "computer"

/-- The quotient `n / 2 ^ s` rounded to the nearest integer, a tie going to the even
one. -/
def roundHalfEven (n s : Nat) : Nat :=
  let q := n / 2 ^ s
  let rem := n % 2 ^ s
  if 2 * rem < 2 ^ s then q
  else if 2 ^ s < 2 * rem then q + 1
  else if q % 2 = 0 then q else q + 1

/-- Numerator, over `2 ^ k`, of the double product `(m / 2 ^ k) * c`, for a natural
`c` that is itself a double.  The exact product is `n / 2 ^ k` with `n = m * c`; a
double keeps 53 significant bits, so the `s = size n - 53` lowest bits of `n` are
rounded away (none when `n < 2 ^ 53`: the product is then exact). -/
def doubleMulNumerator (m c : Nat) : Nat :=
  let n := m * c
  let s := Nat.size n - 53
  roundHalfEven n s * 2 ^ s

/-- The double product `(m / 2 ^ k) * c`, as a rational.  (The result is a multiple
of `2 ^ s / 2 ^ k` with a significand of at most 53 bits and `k ≤ 1074`, so it is a
double; the values at hand are below `c`, far from overflow.) -/
def doubleMul (m k c : Nat) : ℚ :=
  ((doubleMulNumerator m c : ℕ) : ℚ) / ((2 ^ k : ℕ) : ℚ)

/-- Method `generateComputerChoice()`, as a function of the double `m / 2 ^ k`
returned by `Math.random()`:
`this.choices[Math.floor(Math.random() * this.choices.length)]`.  `Math.floor` of
a double is exact.  An index outside the array yields `undefined`. -/
def generateComputerChoice (m k : Nat) : Val :=
  let randomIndex : ℤ := Int.floor (doubleMul m k choices.length)
  if 0 ≤ randomIndex then choices.get? randomIndex.toNat else none

/-- The index in the words of the specification: `floor (r * 3)` with the draw
`r = m / 2 ^ k` and the product taken as exact rationals. -/
def exactIndex (m k : Nat) : ℤ := Int.floor ((m : ℚ) / ((2 ^ k : ℕ) : ℚ) * 3)

/-- Object literal `keyMappings` of `handleKeyNavigation`, read as
`keyMappings[key]`: the own entry of the key, `none` (falsy) otherwise.  The lookup
of the source also finds what the literal inherits from `Object.prototype`; after
`toLowerCase` only the names "constructor" and "__proto__" reach such a member.
No key of a keyboard has either name as its `e.key`, and this definition leaves
them out: it is exact for every other key. -/
def keyMappings (key : String) : Val :=
  match key with
  | "1" => some "rock"
  | "2" => some "paper"
  | "3" => some "scissors"
  | "r" => some "rock"
  | "p" => some "paper"
  | "s" => some "scissors"
  | _ => none

/-- `e.key.toLowerCase()`.  Only the letters A to Z are folded; no other character
has one of the six keys of `keyMappings` as its lower case, so the lookup that
follows gives the same result as in JavaScript. -/
def toLowerCase (key : String) : String := String.mk (key.data.map Char.toLower)

/-- The `await` at which a call of `playRound` is suspended. -/
inductive Phase where
  /-- `await this.delay(800)`, after `showComputerThinking`. -/
  | thinking
  /-- `await this.delay(600)`, after `showComputerChoice`. -/
  | reveal
  /-- `await this.delay(1500)`, before `endGame`. -/
  | ending
  /-- `await this.delay(2000)`, before `prepareNextRound`. -/
  | next
  deriving DecidableEq, Repr

/-- A call of `playRound` that has started and not finished: its local variables
and the time at which the timer it waits for is due. -/
structure Round where
  /-- Parameter `playerChoice`. -/
  playerChoice : Val
  /-- Local `computerChoice` (still `undefined` in phase `thinking`). -/
  computerChoice : Val
  /-- Local `winner` (not yet assigned in phase `thinking`). -/
  winner : String
  /-- Where the call is suspended. -/
  phase : Phase
  /-- Time in milliseconds at which its timer fires. -/
  due : Nat
  deriving DecidableEq, Repr

/-- The fields of a `CyberpunkRPS` object, the part of the page they drive, and
the scheduler (clock and suspended calls of `playRound`, oldest timer first). -/
structure State where
  playerScore : Nat
  computerScore : Nat
  currentRound : Nat
  maxRounds : Nat
  gameOver : Bool
  isProcessing : Bool
  /-- Attribute `disabled` of the choice buttons. -/
  buttonsDisabled : Bool
  /-- Class `active` of the game-over modal. -/
  modalActive : Bool
  /-- The `gameWinner` last passed to `showGameOverModal`, if any. -/
  modalWinner : Option String
  /-- Current time in milliseconds. -/
  now : Nat
  /-- Calls of `playRound` in flight, in the order their timers were set. -/
  pending : List Round
  deriving DecidableEq, Repr

/-- State built by the constructor. -/
def initial : State where
  playerScore := 0
  computerScore := 0
  currentRound := 1
  maxRounds := 5
  gameOver := false
  isProcessing := false
  buttonsDisabled := false
  modalActive := false
  modalWinner := none
  now := 0
  pending := []

/-- Method `determineGameWinner()`. -/
def determineGameWinner (s : State) : String :=
  if s.playerScore > s.computerScore then "player"
  else if s.computerScore > s.playerScore then "computer"
  else "draw"

/-- Method `endGame()`. -/
def endGame (s : State) : State :=
  { s with gameOver := true, modalWinner := some (determineGameWinner s), modalActive := true }

/-- Method `resetGame()` (`prepareNextRound` and the scoreboard texts only touch
the page). -/
def resetGame (s : State) : State :=
  { s with playerScore := 0, computerScore := 0, currentRound := 1, gameOver := false,
           isProcessing := false, buttonsDisabled := false }

/-- Method `startNewGame()`. -/
def startNewGame (s : State) : State :=
  resetGame { s with modalActive := false }

/-- Method `showRoundResult(winner, playerChoice, computerChoice)`: the text it puts
in `.result-text` (field `main` of the message of `getResultMessage`), or `none`
when it throws a `TypeError`.  `getResultMessage` returns early on a draw;
otherwise it builds `winMessages`, calling `toUpperCase` on both choices, which
throws on `undefined`; and for a winner with no entry in `winMessages` the message
is `undefined` and reading `message.main` throws. -/
def showRoundResult (winner : String) (playerChoice computerChoice : Val) : Option String :=
  if winner = "draw" then some "NEURAL SYNC"
  else match playerChoice, computerChoice with
    | some _, some _ =>
      if winner = "player" then some "SYSTEM BREACH"
      else if winner = "computer" then some "FIREWALL ACTIVE"
      else none
    | _, _ => none

/-- The `finally` block of `playRound`. -/
def finallyBlock (s : State) : State :=
  { s with isProcessing := false,
           buttonsDisabled := if s.gameOver then s.buttonsDisabled else false }

/-- Suspend the running call of `playRound` at `await this.delay(ms)`. -/
def suspend (s : State) (r : Round) (phase : Phase) (ms : Nat) : State :=
  { s with pending := s.pending ++ [{ r with phase := phase, due := s.now + ms }] }

/-- Method `playRound(playerChoice)` from its entry to its first `await`. -/
def playRound (s : State) (playerChoice : Val) : State :=
  if s.isProcessing then s
  else
    suspend { s with isProcessing := true, buttonsDisabled := true }
      { playerChoice := playerChoice, computerChoice := none, winner := "",
        phase := Phase.thinking, due := 0 }
      Phase.thinking 800

/-- The score update of `playRound` (`if (winner === 'player') ... else if ...`). -/
def updateScores (s : State) (winner : String) : State :=
  if winner = "player" then { s with playerScore := s.playerScore + 1 }
  else if winner = "computer" then { s with computerScore := s.computerScore + 1 }
  else s

/-- Method `playRound` from the `await` at which the call `r` is suspended to its
next `await` or to its end.  `computerChoice` is the value that
`generateComputerChoice()` returns if this stretch calls it. -/
def resume (s : State) (r : Round) (computerChoice : Val) : State :=
  match r.phase with
  | Phase.thinking =>
    let winner := determineWinner r.playerChoice computerChoice
    suspend (updateScores s winner)
      { r with computerChoice := computerChoice, winner := winner } Phase.reveal 600
  | Phase.reveal =>
    match showRoundResult r.winner r.playerChoice r.computerChoice with
    | none => finallyBlock s
    | some _ =>
      let s1 := { s with currentRound := s.currentRound + 1 }
      if s1.currentRound > s1.maxRounds then suspend s1 r Phase.ending 1500
      else suspend s1 r Phase.next 2000
  | Phase.ending => finallyBlock (endGame s)
  | Phase.next => finallyBlock s

/-- Method `handleKeyNavigation(e)`, with `key` the value of `e.key`. -/
def handleKeyNavigation (s : State) (key : String) : State :=
  if s.isProcessing || s.gameOver then s
  else match keyMappings (toLowerCase key) with
    | some choice => playRound s (some choice)
    | none => s

/-- Method `handleChoiceClick(e)`, with `choice` the value of
`e.currentTarget.dataset.choice`. -/
def handleChoiceClick (s : State) (choice : Val) : State :=
  if s.isProcessing || s.gameOver then s
  else playRound s choice

/-- The pending call whose timer is due first; among timers due at the same time,
the one set first. -/
def earliest : List Round → Option Round
  | [] => none
  | r :: rs =>
    match earliest rs with
    | none => some r
    | some r2 => if r.due ≤ r2.due then some r else some r2

/-- What can happen to the page. -/
inductive Event where
  /-- A click on a choice button whose `data-choice` is `choice`. -/
  | click (choice : Val)
  /-- A `keydown` on the document with `e.key = key`. -/
  | key (key : String)
  /-- A click on the reset button. -/
  | reset
  /-- A click on the new-game button of the modal. -/
  | newGame
  /-- The timer due first fires and its call of `playRound` runs on;
  `computerChoice` is what `generateComputerChoice()` returns if it is called. -/
  | timer (computerChoice : Val)
  /-- Time passes: `ms` milliseconds during which no timer comes due. -/
  | wait (ms : Nat)

/-- One event.  A click on a disabled choice button is not delivered, no timer
fires when none is pending, and time cannot pass beyond a pending timer. -/
def step (s : State) : Event → State
  | Event.click choice => if s.buttonsDisabled then s else handleChoiceClick s choice
  | Event.key key => handleKeyNavigation s key
  | Event.reset => resetGame s
  | Event.newGame => startNewGame s
  | Event.timer computerChoice =>
    match earliest s.pending with
    | none => s
    | some r =>
      resume { s with now := max s.now r.due, pending := s.pending.erase r } r computerChoice
  | Event.wait ms =>
    if s.pending.all (fun r => decide (s.now + ms ≤ r.due)) then { s with now := s.now + ms }
    else s

/-- A sequence of events, from left to right. -/
def run (s : State) (events : List Event) : State := events.foldl step s

/-- Number of calls of `playRound` that have started and not finished. -/
def inFlight (s : State) : Nat := s.pending.length

/-- States the page can be in: those reached from the constructor state. -/
def Reachable (s : State) : Prop := ∃ events : List Event, run initial events = s

/-- One round played to completion: a click on the button of `playerChoice`, then
the three timers of the round (800 ms, 600 ms, then 1500 or 2000 ms), with
`computerChoice` the opponent's choice returned by `generateComputerChoice()` at
the first of them (it is not called at the other two). -/
def playToCompletion (s : State) (playerChoice computerChoice : Val) : State :=
  run s [Event.click playerChoice, Event.timer computerChoice,
    Event.timer none, Event.timer none]

/-- The match of the specification's example: the player always picks rock, the
opponent picks scissors, scissors, rock, paper, scissors. -/
def rockMatch : List (String × String) :=
  [("rock", "scissors"), ("rock", "scissors"), ("rock", "rock"), ("rock", "paper"),
    ("rock", "scissors")]

/-- Rounds played one after another, each to completion, on the given
(player choice, opponent choice) pairs. -/
def playAll (s : State) (rounds : List (String × String)) : State :=
  rounds.foldl (fun t pc => playToCompletion t (some pc.1) (some pc.2)) s

/-- Number of pairs to which `determineWinner` gives the result `outcome`. -/
def countOutcome (outcome : String) (rounds : List (String × String)) : Nat :=
  rounds.countP (fun pc => decide (determineWinner (some pc.1) (some pc.2) = outcome))

/-- A reset in the middle of a round: the key "r" starts a round, 100 ms later
(the round waits in its 800 ms delay) the reset button is clicked, and 100 ms later
the key "p" is pressed. -/
def resetMidRound : List Event :=
  [Event.key "r", Event.wait 100, Event.reset, Event.wait 100, Event.key "p"]

/-- Six rounds started 100 ms apart, each but the last followed 50 ms later by a
reset, all within the 800 ms delay of the first; then the twelve timers that take
each of the six rounds through its 800 ms and its 600 ms delay (the opponent picks
rock each time). -/
def sixRoundsAcrossResets : List Event :=
  [Event.key "r", Event.wait 50, Event.reset, Event.wait 50,
   Event.key "r", Event.wait 50, Event.reset, Event.wait 50,
   Event.key "r", Event.wait 50, Event.reset, Event.wait 50,
   Event.key "r", Event.wait 50, Event.reset, Event.wait 50,
   Event.key "r", Event.wait 50, Event.reset, Event.wait 50,
   Event.key "r"] ++
  List.replicate 6 (Event.timer (some "rock")) ++ List.replicate 6 (Event.timer none)

/-- A reset request (reset button or new-game button) made while a call of
`playRound` is suspended. -/
def midRoundReset (s : State) : Event → Bool
  | Event.reset => !s.pending.isEmpty
  | Event.newGame => !s.pending.isEmpty
  | _ => false

/-- States reached from the constructor state by events none of which is a reset
request made in the middle of a round. -/
inductive ReachableWithoutMidRoundReset : State → Prop where
  | initial : ReachableWithoutMidRoundReset initial
  | step (s : State) (e : Event) : ReachableWithoutMidRoundReset s →
      midRoundReset s e = false → ReachableWithoutMidRoundReset (step s e)

/-- Either no round is in flight and the gate is open, or exactly one is and the
gate is closed; the round counter is within its bound in both cases. -/
def SingleFlight (s : State) : Prop :=
  s.maxRounds = initial.maxRounds ∧
  ((s.pending = [] ∧ s.isProcessing = false ∧ s.currentRound ≤ s.maxRounds + 1 ∧
      (s.gameOver = false → s.currentRound ≤ s.maxRounds)) ∨
    (∃ r : Round, s.pending = [r] ∧ s.isProcessing = true ∧ s.gameOver = false ∧
      (r.phase = Phase.ending → s.currentRound = s.maxRounds + 1) ∧
      (r.phase ≠ Phase.ending → s.currentRound ≤ s.maxRounds)))

/-- The pairs (player, opponent) that the rule of the game gives to the player:
rock beats scissors, paper beats rock, scissors beats paper. -/
def playerWins : List (String × String) :=
  [("rock", "scissors"), ("paper", "rock"), ("scissors", "paper")]

/-- The reference rule of a round, in the words of the specification: equal
choices are a draw, otherwise the player wins exactly on the pairs of
`playerWins` and the computer wins on the others. -/
def referenceRule (a b : String) : String :=
  if a = b then "draw" else if (a, b) ∈ playerWins then "player" else "computer"

end CyberpunkRPS

namespace CyberpunkRPS

/-! ## The outcome of a round -/

/-- Membership in `choices`, spelled out. -/
theorem mem_choices_iff (a : String) :
    a ∈ choices ↔ a = "rock" ∨ a = "paper" ∨ a = "scissors" := by
  simp [choices]

/-- C1: on the whole 3x3 choice space `determineWinner` equals the reference rule:
"draw" on equal choices, otherwise "player" exactly on (rock, scissors),
(paper, rock), (scissors, paper) and "computer" on the three other pairs. -/
theorem determineWinner_eq_referenceRule (a b : String) (ha : a ∈ choices) (hb : b ∈ choices) :
    determineWinner (some a) (some b) = referenceRule a b ∧
    (a = b → determineWinner (some a) (some b) = "draw") ∧
    (a ≠ b → (determineWinner (some a) (some b) = "player" ↔
        (a, b) = ("rock", "scissors") ∨ (a, b) = ("paper", "rock") ∨
        (a, b) = ("scissors", "paper"))) ∧
    (a ≠ b → (determineWinner (some a) (some b) = "computer" ↔
        (a, b) = ("scissors", "rock") ∨ (a, b) = ("rock", "paper") ∨
        (a, b) = ("paper", "scissors"))) := by
  rw [mem_choices_iff] at ha hb
  rcases ha with rfl | rfl | rfl <;> rcases hb with rfl | rfl | rfl <;> decide

/-- C1 at rock against scissors: the player wins. -/
theorem determineWinner_eq_referenceRule_witness :
    determineWinner (some "rock") (some "scissors") = referenceRule "rock" "scissors" ∧
    determineWinner (some "rock") (some "scissors") = "player" :=
  have h := determineWinner_eq_referenceRule "rock" "scissors" (by decide) (by decide)
  ⟨h.1, (h.2.2.1 (by decide)).2 (Or.inl rfl)⟩

/-- C9: on two different choices `determineWinner` is antisymmetric: the two
orders give different results, neither is "draw", and exactly one of them is
"player" while the other is "computer". -/
theorem determineWinner_antisymm (a b : String) (ha : a ∈ choices) (hb : b ∈ choices)
    (hab : a ≠ b) :
    determineWinner (some a) (some b) ≠ determineWinner (some b) (some a) ∧
    determineWinner (some a) (some b) ≠ "draw" ∧
    determineWinner (some b) (some a) ≠ "draw" ∧
    ((determineWinner (some a) (some b) = "player" ∧
        determineWinner (some b) (some a) = "computer") ∨
      (determineWinner (some a) (some b) = "computer" ∧
        determineWinner (some b) (some a) = "player")) := by
  rw [mem_choices_iff] at ha hb
  rcases ha with rfl | rfl | rfl <;> rcases hb with rfl | rfl | rfl <;>
    first
      | exact absurd rfl hab
      | decide

/-- C9 at paper against scissors. -/
theorem determineWinner_antisymm_witness :
    determineWinner (some "paper") (some "scissors") ≠
      determineWinner (some "scissors") (some "paper") ∧
    determineWinner (some "paper") (some "scissors") = "computer" ∧
    determineWinner (some "scissors") (some "paper") = "player" :=
  have h := determineWinner_antisymm "paper" "scissors" (by decide) (by decide) (by decide)
  ⟨h.1, by decide, by decide⟩

/-! ## The opponent chooser -/

/-- The three cases of the product of a double below 1 with 3: it is exact, or one
bit is rounded away, or two bits are. -/
theorem doubleMulNumerator_three (m : ℕ) (hm : m < 2 ^ 53) :
    (m * 3 < 2 ^ 53 ∧ doubleMulNumerator m 3 = m * 3) ∨
    (2 ^ 53 ≤ m * 3 ∧ m * 3 < 2 ^ 54 ∧ doubleMulNumerator m 3 = roundHalfEven (m * 3) 1 * 2) ∨
    (2 ^ 54 ≤ m * 3 ∧ doubleMulNumerator m 3 = roundHalfEven (m * 3) 2 * 4) := by
  have hsize : Nat.size (m * 3) ≤ 55 := Nat.size_le.mpr (by omega)
  by_cases h53 : m * 3 < 2 ^ 53
  · left
    have hs : Nat.size (m * 3) ≤ 53 := Nat.size_le.mpr h53
    have hzero : Nat.size (m * 3) - 53 = 0 := by omega
    refine ⟨h53, ?_⟩
    simp [doubleMulNumerator, hzero, roundHalfEven, Nat.mod_one]
  · right
    have h53le : 2 ^ 53 ≤ m * 3 := by omega
    have hlt : 53 < Nat.size (m * 3) := Nat.lt_size.mpr h53le
    by_cases h54 : m * 3 < 2 ^ 54
    · left
      have hs : Nat.size (m * 3) ≤ 54 := Nat.size_le.mpr h54
      have hone : Nat.size (m * 3) - 53 = 1 := by omega
      refine ⟨h53le, h54, ?_⟩
      simp [doubleMulNumerator, hone]
    · right
      have h54le : 2 ^ 54 ≤ m * 3 := by omega
      have hlt2 : 54 < Nat.size (m * 3) := Nat.lt_size.mpr h54le
      have htwo : Nat.size (m * 3) - 53 = 2 := by omega
      refine ⟨h54le, ?_⟩
      simp [doubleMulNumerator, htwo]

/-- Rounding to the nearest double does not cross `K`, `2 K` or `3 K` when these lie
on the grid of the rounding. -/
theorem doubleMulNumerator_three_grid (m K : ℕ) (hm : m < 2 ^ 53) (hK : m < K)
    (h4 : 2 ^ 53 ≤ m * 3 → 4 ∣ K) :
    doubleMulNumerator m 3 < 3 * K ∧
    (m * 3 < K → doubleMulNumerator m 3 ≤ K) ∧
    (K ≤ m * 3 → K ≤ doubleMulNumerator m 3) ∧
    (m * 3 < 2 * K → doubleMulNumerator m 3 ≤ 2 * K) ∧
    (2 * K ≤ m * 3 → 2 * K ≤ doubleMulNumerator m 3) := by
  rcases doubleMulNumerator_three m hm with ⟨_, hy⟩ | ⟨h53, _, hy⟩ | ⟨h54, hy⟩
  · rw [hy]
    omega
  · obtain ⟨K4, rfl⟩ := h4 h53
    rw [hy]
    simp only [roundHalfEven, pow_one]
    split_ifs <;> omega
  · obtain ⟨K4, rfl⟩ := h4 (by omega)
    rw [hy]
    simp only [roundHalfEven]
    norm_num
    split_ifs <;> omega

/-- When the product with 3 needs rounding, the scale of the draw is at least 2. -/
theorem four_dvd_two_pow (m k : ℕ) (hk : m < 2 ^ k) (h53 : 2 ^ 53 ≤ m * 3) : 4 ∣ 2 ^ k := by
  have h2 : 2 ≤ k := by
    by_contra hlt
    have hk1 : k ≤ 1 := by omega
    have hle : 2 ^ k ≤ 2 ^ 1 := Nat.pow_le_pow_right (by norm_num) hk1
    omega
  refine ⟨2 ^ (k - 2), ?_⟩
  have hsplit : k = 2 + (k - 2) := by omega
  conv_lhs => rw [hsplit, pow_add]
  norm_num

/-- The floor of the rounded product is below 3, and is the floor of the exact
product or one more. -/
theorem doubleMulNumerator_three_bounds (m k : ℕ) (hm : m < 2 ^ 53) (hk : m < 2 ^ k) :
    doubleMulNumerator m 3 / 2 ^ k < 3 ∧
    m * 3 / 2 ^ k ≤ doubleMulNumerator m 3 / 2 ^ k ∧
    doubleMulNumerator m 3 / 2 ^ k ≤ m * 3 / 2 ^ k + 1 := by
  have hKpos : 0 < 2 ^ k := Nat.pow_pos (by norm_num)
  obtain ⟨h3, h1a, h1b, h2a, h2b⟩ :=
    doubleMulNumerator_three_grid m (2 ^ k) hm hk (four_dvd_two_pow m k hk)
  have hlt3 : doubleMulNumerator m 3 / 2 ^ k < 3 := (Nat.div_lt_iff_lt_mul hKpos).mpr h3
  refine ⟨hlt3, ?_, ?_⟩
  · by_cases c1 : m * 3 < 2 ^ k
    · rw [Nat.div_eq_of_lt c1]
      exact Nat.zero_le _
    · by_cases c2 : m * 3 < 2 * 2 ^ k
      · have hi : m * 3 / 2 ^ k < 2 := (Nat.div_lt_iff_lt_mul hKpos).mpr c2
        have hy : 1 ≤ doubleMulNumerator m 3 / 2 ^ k :=
          (Nat.le_div_iff_mul_le hKpos).mpr (by have := h1b (by omega); omega)
        omega
      · have hy : 2 ≤ doubleMulNumerator m 3 / 2 ^ k :=
          (Nat.le_div_iff_mul_le hKpos).mpr (by have := h2b (by omega); omega)
        have hi : m * 3 / 2 ^ k < 3 := (Nat.div_lt_iff_lt_mul hKpos).mpr (by omega)
        omega
  · by_cases c1 : m * 3 < 2 ^ k
    · have hy : doubleMulNumerator m 3 / 2 ^ k < 2 :=
        (Nat.div_lt_iff_lt_mul hKpos).mpr (by have := h1a c1; omega)
      exact le_trans (Nat.le_of_lt_succ hy) (Nat.le_add_left 1 _)
    · have hi : 1 ≤ m * 3 / 2 ^ k :=
        (Nat.le_div_iff_mul_le hKpos).mpr (by omega)
      omega

/-- `Math.floor` of the double product, as a quotient of naturals. -/
theorem floor_doubleMul (m k c : ℕ) :
    Int.floor (doubleMul m k c) = ((doubleMulNumerator m c / 2 ^ k : ℕ) : ℤ) := by
  unfold doubleMul
  rw [Rat.floor_natCast_div_natCast, Int.natCast_div]

/-- The choice returned for a draw is the entry of `choices` at the floor of the
rounded product. -/
theorem generateComputerChoice_eq (m k : ℕ) :
    generateComputerChoice m k = choices.get? (doubleMulNumerator m 3 / 2 ^ k) := by
  have hfloor := floor_doubleMul m k choices.length
  have hlen : choices.length = 3 := rfl
  show (if 0 ≤ Int.floor (doubleMul m k choices.length)
      then choices.get? (Int.floor (doubleMul m k choices.length)).toNat else none) = _
  rw [hfloor, if_pos (Int.natCast_nonneg _), Int.toNat_ofNat, hlen]

/-- The index of the specification, as a quotient of naturals. -/
theorem exactIndex_eq (m k : ℕ) : exactIndex m k = ((m * 3 / 2 ^ k : ℕ) : ℤ) := by
  unfold exactIndex
  have hq : (m : ℚ) / ((2 ^ k : ℕ) : ℚ) * 3 = ((m * 3 : ℕ) : ℚ) / ((2 ^ k : ℕ) : ℚ) := by
    push_cast
    ring
  rw [hq, Rat.floor_natCast_div_natCast, Int.natCast_div]

/-- A product below `2 ^ 53` is not rounded. -/
theorem doubleMulNumerator_exact (m : ℕ) (h : m * 3 < 2 ^ 53) :
    doubleMulNumerator m 3 = m * 3 := by
  rcases doubleMulNumerator_three m (by omega) with ⟨_, hy⟩ | ⟨h53, _, _⟩ | ⟨h54, _⟩
  · exact hy
  · omega
  · omega

/-- The product of 6004799503160661 with 3 is `2 ^ 54 - 1`, a tie that rounds up to
`2 ^ 54`. -/
theorem doubleMulNumerator_below_third :
    doubleMulNumerator 6004799503160661 3 = 2 ^ 54 := by
  rcases doubleMulNumerator_three 6004799503160661 (by norm_num) with
    ⟨h, _⟩ | ⟨_, _, hy⟩ | ⟨h54, _⟩
  · norm_num at h
  · rw [hy]
    decide
  · norm_num at h54

/-- C10, as the code has it: for every double `r = m / 2 ^ k` with `0 ≤ r < 1` the
index `Math.floor(r * 3)`, computed on the double product, is 0, 1 or 2, the lookup
in `choices` stays inside the list and `generateComputerChoice` returns a member
of `choices`; the index is the floor of the exact product `3 r` or one more; and
each of the three choices is returned for some draw (0 gives rock, 0.5 paper, 0.75
scissors). -/
theorem generateComputerChoice_mem_and_onto :
    (∀ m k : ℕ, m < 2 ^ 53 → k ≤ 1074 → m < 2 ^ k →
      0 ≤ Int.floor (doubleMul m k choices.length) ∧
      Int.floor (doubleMul m k choices.length) < (choices.length : ℤ) ∧
      (Int.floor (doubleMul m k choices.length)).toNat < choices.length ∧
      (∃ c, c ∈ choices ∧ generateComputerChoice m k = some c) ∧
      exactIndex m k ≤ Int.floor (doubleMul m k choices.length) ∧
      Int.floor (doubleMul m k choices.length) ≤ exactIndex m k + 1) ∧
    (∀ c, c ∈ choices → ∃ m k : ℕ, m < 2 ^ 53 ∧ k ≤ 1074 ∧ m < 2 ^ k ∧
      generateComputerChoice m k = some c) := by
  have hlen : choices.length = 3 := rfl
  constructor
  · intro m k hm _ hk
    obtain ⟨h3, hlo, hhi⟩ := doubleMulNumerator_three_bounds m k hm hk
    rw [hlen, floor_doubleMul, exactIndex_eq]
    refine ⟨Int.natCast_nonneg _, by exact_mod_cast h3, by rw [Int.toNat_ofNat]; exact h3, ?_,
      by exact_mod_cast hlo, by exact_mod_cast hhi⟩
    rw [generateComputerChoice_eq]
    generalize doubleMulNumerator m 3 / 2 ^ k = i at h3
    interval_cases i
    · exact ⟨"rock", by decide, rfl⟩
    · exact ⟨"paper", by decide, rfl⟩
    · exact ⟨"scissors", by decide, rfl⟩
  · intro c hc
    rw [mem_choices_iff] at hc
    rcases hc with rfl | rfl | rfl
    · refine ⟨0, 1, by norm_num, by norm_num, by norm_num, ?_⟩
      rw [generateComputerChoice_eq, doubleMulNumerator_exact 0 (by norm_num)]
      rfl
    · refine ⟨1, 1, by norm_num, by norm_num, by norm_num, ?_⟩
      rw [generateComputerChoice_eq, doubleMulNumerator_exact 1 (by norm_num)]
      rfl
    · refine ⟨3, 2, by norm_num, by norm_num, by norm_num, ?_⟩
      rw [generateComputerChoice_eq, doubleMulNumerator_exact 3 (by norm_num)]
      rfl

/-- C10 as the code has it, at the draw 0.5: the index is inside the list and paper
is returned. -/
theorem generateComputerChoice_mem_and_onto_witness :
    (Int.floor (doubleMul 1 1 choices.length)).toNat < choices.length ∧
    (∃ c, c ∈ choices ∧ generateComputerChoice 1 1 = some c) ∧
    generateComputerChoice 1 1 = some "paper" :=
  have h := generateComputerChoice_mem_and_onto.1 1 1 (by norm_num) (by norm_num) (by norm_num)
  ⟨h.2.2.1, h.2.2.2.1, by
    rw [generateComputerChoice_eq, doubleMulNumerator_exact 1 (by norm_num)]
    rfl⟩

/-- C10 as stated fails: the thirds of the unit interval do not each map to one
choice.  The double 0.6666666666666666 = 6004799503160661 / 2 ^ 53 is below 2/3
and the floor of its exact product with 3 is 1 (paper), but the double product
rounds up to 2 and `generateComputerChoice` returns scissors; likewise
0.3333333333333333 = 6004799503160661 / 2 ^ 54 is below 1/3, with exact index 0
(rock), and paper is returned. -/
theorem generateComputerChoice_thirds_fail :
    (6004799503160661 < 2 ^ 53 ∧ 53 ≤ 1074 ∧ 6004799503160661 < 2 ^ 53) ∧
    ((1 : ℚ) / 3 ≤ (6004799503160661 : ℚ) / ((2 ^ 53 : ℕ) : ℚ) ∧
      (6004799503160661 : ℚ) / ((2 ^ 53 : ℕ) : ℚ) < 2 / 3) ∧
    exactIndex 6004799503160661 53 = 1 ∧
    Int.floor (doubleMul 6004799503160661 53 choices.length) = 2 ∧
    generateComputerChoice 6004799503160661 53 = some "scissors" ∧
    (6004799503160661 < 2 ^ 53 ∧ 54 ≤ 1074 ∧ 6004799503160661 < 2 ^ 54) ∧
    ((0 : ℚ) ≤ (6004799503160661 : ℚ) / ((2 ^ 54 : ℕ) : ℚ) ∧
      (6004799503160661 : ℚ) / ((2 ^ 54 : ℕ) : ℚ) < 1 / 3) ∧
    exactIndex 6004799503160661 54 = 0 ∧
    Int.floor (doubleMul 6004799503160661 54 choices.length) = 1 ∧
    generateComputerChoice 6004799503160661 54 = some "paper" := by
  have hlen : choices.length = 3 := rfl
  refine ⟨by norm_num, by norm_num, ?_, ?_, ?_, by norm_num, by norm_num, ?_, ?_, ?_⟩
  · rw [exactIndex_eq]; norm_num
  · rw [hlen, floor_doubleMul, doubleMulNumerator_below_third]; norm_num
  · rw [generateComputerChoice_eq, doubleMulNumerator_below_third]
    norm_num
    rfl
  · rw [exactIndex_eq]; norm_num
  · rw [hlen, floor_doubleMul, doubleMulNumerator_below_third]; norm_num
  · rw [generateComputerChoice_eq, doubleMulNumerator_below_third]
    norm_num
    rfl

/-! ## The match controller -/

/-- The match winner is decided by comparing the two scores. -/
theorem determineGameWinner_iff (s : State) :
    (determineGameWinner s = "player" ↔ s.playerScore > s.computerScore) ∧
    (determineGameWinner s = "computer" ↔ s.computerScore > s.playerScore) ∧
    (determineGameWinner s = "draw" ↔ s.playerScore = s.computerScore) := by
  refine ⟨?_, ?_, ?_⟩
  · unfold determineGameWinner
    split_ifs with h1 h2
    · simp [h1]
    · simp [h1]
    · simp [h1]
  · unfold determineGameWinner
    split_ifs with h1 h2
    · simp; omega
    · simp [h2]
    · simp [h2]
  · unfold determineGameWinner
    split_ifs with h1 h2
    · simp; omega
    · simp; omega
    · simp; omega

/-- C8: `endGame` sets `gameOver`, leaves both scores and `currentRound` unchanged and
shows the winner computed by `determineGameWinner`, which is "player" iff
`playerScore > computerScore`, "computer" iff `computerScore > playerScore` and
"draw" iff the scores are equal. -/
theorem endGame_spec (s : State) :
    (endGame s).gameOver = true ∧
    (endGame s).playerScore = s.playerScore ∧
    (endGame s).computerScore = s.computerScore ∧
    (endGame s).currentRound = s.currentRound ∧
    (endGame s).modalWinner = some (determineGameWinner s) ∧
    determineGameWinner (endGame s) = determineGameWinner s ∧
    (determineGameWinner s = "player" ↔ s.playerScore > s.computerScore) ∧
    (determineGameWinner s = "computer" ↔ s.computerScore > s.playerScore) ∧
    (determineGameWinner s = "draw" ↔ s.playerScore = s.computerScore) := by
  obtain ⟨h1, h2, h3⟩ := determineGameWinner_iff s
  exact ⟨rfl, rfl, rfl, rfl, rfl, rfl, h1, h2, h3⟩

/-- C6: from any state `resetGame` restores the initial match state: both scores
0, `currentRound` 1, `gameOver` and `isProcessing` false, `maxRounds` unchanged
(the choice set is a constant); `startNewGame` yields the same match state. -/
theorem resetGame_spec (s : State) :
    ((resetGame s).playerScore = 0 ∧ (resetGame s).computerScore = 0 ∧
      (resetGame s).currentRound = 1 ∧ (resetGame s).gameOver = false ∧
      (resetGame s).isProcessing = false ∧ (resetGame s).maxRounds = s.maxRounds) ∧
    ((startNewGame s).playerScore = 0 ∧ (startNewGame s).computerScore = 0 ∧
      (startNewGame s).currentRound = 1 ∧ (startNewGame s).gameOver = false ∧
      (startNewGame s).isProcessing = false ∧ (startNewGame s).maxRounds = s.maxRounds) ∧
    ((resetGame s).playerScore = initial.playerScore ∧
      (resetGame s).computerScore = initial.computerScore ∧
      (resetGame s).currentRound = initial.currentRound ∧
      (resetGame s).gameOver = initial.gameOver ∧
      (resetGame s).isProcessing = initial.isProcessing) ∧
    startNewGame s = { resetGame s with modalActive := false } :=
  ⟨⟨rfl, rfl, rfl, rfl, rfl, rfl⟩, ⟨rfl, rfl, rfl, rfl, rfl, rfl⟩,
    ⟨rfl, rfl, rfl, rfl, rfl⟩, rfl⟩

/-! ## The input gate -/

/-- C5: while `isProcessing` or `gameOver` is set, `handleChoiceClick` and
`handleKeyNavigation` return the state as it was, for every click and every key:
no round starts, no field changes and nothing is queued.  When both flags are
clear, a click, or a key that `keyMappings` maps to a choice, starts exactly one
round with that choice (suspended at its first delay) and sets `isProcessing`,
leaving the scores, `currentRound` and `gameOver` as they were. -/
theorem inputGate_spec (s : State) :
    ((s.isProcessing = true ∨ s.gameOver = true) →
      ∀ (choice : Val) (key : String),
        handleChoiceClick s choice = s ∧ handleKeyNavigation s key = s) ∧
    (s.isProcessing = false → s.gameOver = false →
      ∀ (choice : Val) (key c : String), keyMappings (toLowerCase key) = some c →
        ((handleChoiceClick s choice).isProcessing = true ∧
          inFlight (handleChoiceClick s choice) = inFlight s + 1 ∧
          (handleChoiceClick s choice).pending = s.pending ++
            [{ playerChoice := choice, computerChoice := none, winner := "",
               phase := Phase.thinking, due := s.now + 800 }] ∧
          (handleChoiceClick s choice).playerScore = s.playerScore ∧
          (handleChoiceClick s choice).computerScore = s.computerScore ∧
          (handleChoiceClick s choice).currentRound = s.currentRound ∧
          (handleChoiceClick s choice).gameOver = false) ∧
        ((handleKeyNavigation s key).isProcessing = true ∧
          inFlight (handleKeyNavigation s key) = inFlight s + 1 ∧
          (handleKeyNavigation s key).pending = s.pending ++
            [{ playerChoice := some c, computerChoice := none, winner := "",
               phase := Phase.thinking, due := s.now + 800 }] ∧
          (handleKeyNavigation s key).playerScore = s.playerScore ∧
          (handleKeyNavigation s key).computerScore = s.computerScore ∧
          (handleKeyNavigation s key).currentRound = s.currentRound ∧
          (handleKeyNavigation s key).gameOver = false)) := by
  constructor
  · intro h choice key
    have hg : (s.isProcessing || s.gameOver) = true := by
      rcases h with h | h <;> simp [h]
    simp [handleChoiceClick, handleKeyNavigation, hg]
  · intro hp hg choice key c hc
    simp [handleChoiceClick, handleKeyNavigation, playRound, suspend, inFlight, hp, hg, hc]

/-- C5 on two states: in the initial state the key "R" starts one round with rock;
in the state that follows, the key "p" and a click on paper are dropped. -/
theorem inputGate_spec_witness :
    inFlight (handleKeyNavigation initial "R") = 1 ∧
    (handleKeyNavigation initial "R").isProcessing = true ∧
    handleKeyNavigation (handleKeyNavigation initial "R") "p" =
      handleKeyNavigation initial "R" ∧
    handleChoiceClick (handleKeyNavigation initial "R") (some "paper") =
      handleKeyNavigation initial "R" :=
  have h1 := ((inputGate_spec initial).2 rfl rfl none "R" "rock" (by decide)).2
  have h2 := (inputGate_spec (handleKeyNavigation initial "R")).1 (Or.inl h1.1)
    (some "paper") "p"
  ⟨h1.2.1, h1.1, h2.2, h2.1⟩

/-! ## A match played round after round -/

/-- The three possible results of `determineWinner`. -/
theorem determineWinner_cases (p c : Val) :
    determineWinner p c = "draw" ∨ determineWinner p c = "player" ∨
    determineWinner p c = "computer" := by
  unfold determineWinner
  split_ifs <;> simp

/-- One round played to completion from a state with no round in flight. -/
theorem playToCompletion_idle (s : State) (p c : String)
    (hpend : s.pending = []) (hproc : s.isProcessing = false) (hover : s.gameOver = false)
    (hbtn : s.buttonsDisabled = false) :
    (playToCompletion s (some p) (some c)).playerScore =
      s.playerScore + (if determineWinner (some p) (some c) = "player" then 1 else 0) ∧
    (playToCompletion s (some p) (some c)).computerScore =
      s.computerScore + (if determineWinner (some p) (some c) = "computer" then 1 else 0) ∧
    (playToCompletion s (some p) (some c)).currentRound = s.currentRound + 1 ∧
    (playToCompletion s (some p) (some c)).maxRounds = s.maxRounds ∧
    (playToCompletion s (some p) (some c)).pending = [] ∧
    (playToCompletion s (some p) (some c)).isProcessing = false ∧
    (playToCompletion s (some p) (some c)).gameOver = decide (s.currentRound + 1 > s.maxRounds) ∧
    (playToCompletion s (some p) (some c)).buttonsDisabled = decide (s.currentRound + 1 > s.maxRounds) ∧
    (s.currentRound + 1 > s.maxRounds →
      (playToCompletion s (some p) (some c)).modalWinner =
        some (determineGameWinner (playToCompletion s (some p) (some c)))) := by
  rcases determineWinner_cases (some p) (some c) with hw | hw | hw <;>
    by_cases hlast : s.currentRound + 1 > s.maxRounds <;>
    simp [playToCompletion, run, step, handleChoiceClick, playRound, suspend, earliest, resume,
      updateScores, showRoundResult, finallyBlock, endGame, determineGameWinner,
      hpend, hproc, hover, hbtn, hw, hlast]

/-- Playing one more round after a sequence of rounds. -/
theorem playAll_append_singleton (s : State) (rounds : List (String × String))
    (pc : String × String) :
    playAll s (rounds ++ [pc]) =
      playToCompletion (playAll s rounds) (some pc.1) (some pc.2) := by
  simp [playAll, List.foldl_append]

/-- Counting outcomes after one more round. -/
theorem countOutcome_append_singleton (outcome : String) (rounds : List (String × String))
    (pc : String × String) :
    countOutcome outcome (rounds ++ [pc]) = countOutcome outcome rounds +
      (if determineWinner (some pc.1) (some pc.2) = outcome then 1 else 0) := by
  simp [countOutcome, List.countP_append, List.countP_cons]

/-- The state after `rounds` played to completion from the initial state, as long
as the match is not over before the last of them. -/
theorem playAll_initial (rounds : List (String × String))
    (hlen : rounds.length ≤ initial.maxRounds) :
    (playAll initial rounds).playerScore = countOutcome "player" rounds ∧
    (playAll initial rounds).computerScore = countOutcome "computer" rounds ∧
    (playAll initial rounds).currentRound = rounds.length + 1 ∧
    (playAll initial rounds).maxRounds = initial.maxRounds ∧
    (playAll initial rounds).pending = [] ∧
    (playAll initial rounds).isProcessing = false ∧
    (playAll initial rounds).gameOver = decide (rounds.length = initial.maxRounds) ∧
    (playAll initial rounds).buttonsDisabled = decide (rounds.length = initial.maxRounds) ∧
    (rounds.length = initial.maxRounds →
      (playAll initial rounds).modalWinner =
        some (determineGameWinner (playAll initial rounds))) := by
  induction rounds using List.reverseRecOn with
  | nil =>
    simp [playAll, countOutcome, initial]
  | append_singleton rounds pc ih =>
    have hmax : initial.maxRounds = 5 := rfl
    rw [List.length_append, List.length_singleton] at hlen
    obtain ⟨hp, hc, hr, hm, hpend, hproc, hover, hbtn, -⟩ := ih (by omega)
    have hlt : rounds.length ≠ initial.maxRounds := by omega
    rw [decide_eq_false hlt] at hover hbtn
    have h := playToCompletion_idle (playAll initial rounds) pc.1 pc.2 hpend hproc hover hbtn
    rw [playAll_append_singleton, countOutcome_append_singleton,
      countOutcome_append_singleton, List.length_append, List.length_singleton]
    obtain ⟨h1, h2, h3, h4, h5, h6, h7, h8, h9⟩ := h
    rw [hr, hm] at h7 h8 h9
    refine ⟨by rw [h1, hp], by rw [h2, hc], by rw [h3, hr], by rw [h4, hm], h5, h6, ?_, ?_, ?_⟩
    · rw [h7]
      apply decide_eq_decide.mpr
      omega
    · rw [h8]
      apply decide_eq_decide.mpr
      omega
    · intro hfull
      exact h9 (by omega)

/-- C2: from a fresh match, `n ≤ maxRounds` rounds played one after another to
completion, on any sequence of (player choice, opponent choice) pairs, leave
`playerScore` equal to the number of pairs `determineWinner` gives to "player",
`computerScore` equal to the number it gives to "computer" (so the drawn rounds
change neither score), `currentRound = n + 1`, and `gameOver` true exactly when
`n = maxRounds`, in which case the winner shown is `determineGameWinner`, the side
with the higher score. -/
theorem match_lifecycle (rounds : List (String × String))
    (hlen : rounds.length ≤ initial.maxRounds) :
    (playAll initial rounds).playerScore = countOutcome "player" rounds ∧
    (playAll initial rounds).computerScore = countOutcome "computer" rounds ∧
    (playAll initial rounds).playerScore + (playAll initial rounds).computerScore +
      countOutcome "draw" rounds = rounds.length ∧
    (playAll initial rounds).currentRound = rounds.length + 1 ∧
    inFlight (playAll initial rounds) = 0 ∧
    ((playAll initial rounds).gameOver = true ↔ rounds.length = initial.maxRounds) ∧
    (rounds.length = initial.maxRounds →
      (playAll initial rounds).modalWinner =
        some (determineGameWinner (playAll initial rounds)) ∧
      (determineGameWinner (playAll initial rounds) = "player" ↔
        countOutcome "player" rounds > countOutcome "computer" rounds) ∧
      (determineGameWinner (playAll initial rounds) = "computer" ↔
        countOutcome "computer" rounds > countOutcome "player" rounds) ∧
      (determineGameWinner (playAll initial rounds) = "draw" ↔
        countOutcome "player" rounds = countOutcome "computer" rounds)) := by
  obtain ⟨hp, hc, hr, -, hpend, -, hover, -, hmodal⟩ := playAll_initial rounds hlen
  have hsum : countOutcome "player" rounds + countOutcome "computer" rounds +
      countOutcome "draw" rounds = rounds.length := by
    clear hp hc hr hpend hover hmodal hlen
    induction rounds with
    | nil => simp [countOutcome]
    | cons pc rounds ih =>
      have hcons : ∀ o : String, countOutcome o (pc :: rounds) = countOutcome o rounds +
          (if determineWinner (some pc.1) (some pc.2) = o then 1 else 0) := by
        intro o
        simp [countOutcome, List.countP_cons]
      rw [hcons, hcons, hcons, List.length_cons]
      rcases determineWinner_cases (some pc.1) (some pc.2) with hw | hw | hw <;>
        simp [hw] <;> omega
  obtain ⟨hw1, hw2, hw3⟩ := determineGameWinner_iff (playAll initial rounds)
  refine ⟨hp, hc, by rw [hp, hc]; exact hsum, hr, by simp [inFlight, hpend], ?_, ?_⟩
  · rw [hover]
    simp
  · intro hfull
    refine ⟨hmodal hfull, ?_, ?_, ?_⟩
    · rw [hw1, hp, hc]
    · rw [hw2, hp, hc]
    · rw [hw3, hp, hc]

/-- C2 on the match of the example: the player always picks rock against scissors,
scissors, rock, paper, scissors and ends with 3 points against 1, one drawn
round, `currentRound` 6, the match over and the player shown as its winner. -/
theorem match_lifecycle_witness :
    rockMatch.length ≤ initial.maxRounds ∧
    (playAll initial rockMatch).playerScore = 3 ∧
    (playAll initial rockMatch).computerScore = 1 ∧
    countOutcome "draw" rockMatch = 1 ∧
    (playAll initial rockMatch).currentRound = 6 ∧
    (playAll initial rockMatch).gameOver = true ∧
    (playAll initial rockMatch).modalWinner = some "player" ∧
    determineGameWinner (playAll initial rockMatch) = "player" :=
  have h := match_lifecycle rockMatch (by decide)
  have hp : countOutcome "player" rockMatch = 3 := by decide
  have hc : countOutcome "computer" rockMatch = 1 := by decide
  have hwin : determineGameWinner (playAll initial rockMatch) = "player" :=
    (h.2.2.2.2.2.2 rfl).2.1.mpr (by rw [hp, hc]; decide)
  ⟨by decide, h.1.trans hp, h.2.1.trans hc, by decide, h.2.2.2.1,
    h.2.2.2.2.2.1.mpr rfl, (h.2.2.2.2.2.2 rfl).1.trans (congrArg some hwin), hwin⟩

/-! ## Values outside the choice set -/

/-- The entry of `winConditions` for a value outside the choice set. -/
theorem winConditions_invalid (p : Val) (hp : ∀ a, a ∈ choices → p ≠ some a) :
    winConditions p = none := by
  have h1 := hp "rock" (by decide)
  have h2 := hp "paper" (by decide)
  have h3 := hp "scissors" (by decide)
  unfold winConditions
  split <;> first | rfl | contradiction

/-- C7, as the code has it: a player-choice value outside the choice set (another
string, or `undefined`) is not rejected.  Against every opponent choice of the
choice set `determineWinner` returns "computer", and a round played with it from a
state with no round in flight gives the computer one point and the player none;
when the value is a string, the round counter advances by one as in any round. -/
theorem invalid_choice_goes_to_computer (p : Val) (c : String)
    (hp : ∀ a, a ∈ choices → p ≠ some a) (hc : c ∈ choices) :
    determineWinner p (some c) = "computer" ∧
    ∀ s : State, s.pending = [] → s.isProcessing = false → s.gameOver = false →
      s.buttonsDisabled = false →
      (playToCompletion s p (some c)).computerScore = s.computerScore + 1 ∧
      (playToCompletion s p (some c)).playerScore = s.playerScore ∧
      inFlight (playToCompletion s p (some c)) = 0 ∧
      (∀ a : String, p = some a →
        (playToCompletion s p (some c)).currentRound = s.currentRound + 1) := by
  have hne : p ≠ some c := hp c hc
  have hwin : determineWinner p (some c) = "computer" := by
    unfold determineWinner
    rw [winConditions_invalid p hp]
    simp [hne]
  refine ⟨hwin, ?_⟩
  intro s hpend hproc hover hbtn
  cases p with
  | none =>
    by_cases hlast : s.currentRound + 1 > s.maxRounds <;>
      simp [playToCompletion, run, step, handleChoiceClick, playRound, suspend, earliest,
        resume, updateScores, showRoundResult, finallyBlock, endGame, inFlight,
        hpend, hproc, hover, hbtn, hwin, hlast]
  | some a =>
    by_cases hlast : s.currentRound + 1 > s.maxRounds <;>
      simp [playToCompletion, run, step, handleChoiceClick, playRound, suspend, earliest,
        resume, updateScores, showRoundResult, finallyBlock, endGame, inFlight,
        hpend, hproc, hover, hbtn, hwin, hlast]

/-- C7 as the code has it, at the value "lizard" against rock in the initial
state. -/
theorem invalid_choice_goes_to_computer_witness :
    determineWinner (some "lizard") (some "rock") = "computer" ∧
    (playToCompletion initial (some "lizard") (some "rock")).computerScore = 1 ∧
    (playToCompletion initial (some "lizard") (some "rock")).playerScore = 0 ∧
    (playToCompletion initial (some "lizard") (some "rock")).currentRound = 2 :=
  have h := invalid_choice_goes_to_computer (some "lizard") "rock" (by decide) (by decide)
  have h2 := h.2 initial rfl rfl rfl rfl
  ⟨h.1, h2.1, h2.2.1, h2.2.2.2 "lizard" rfl⟩

/-- C7 as stated fails: "lizard" is not one of the three choices, yet against rock
`determineWinner` returns "computer" and the round played with it in the initial
state gives the computer a point and advances the round counter from 1 to 2. -/
theorem invalid_choice_not_rejected :
    "lizard" ∉ choices ∧
    determineWinner (some "lizard") (some "rock") = "computer" ∧
    (playToCompletion initial (some "lizard") (some "rock")).computerScore =
      initial.computerScore + 1 ∧
    (playToCompletion initial (some "lizard") (some "rock")).currentRound =
      initial.currentRound + 1 := by
  decide

/-! ## Rounds that overlap after a reset -/

/-- C3 at `resetMidRound`: after the reset the round started by "r" is still
suspended while `isProcessing` is false again, so the key "p" starts a second
round: two calls of `playRound` are in flight in a reachable state. -/
theorem resetMidRound_two_in_flight :
    Reachable (run initial resetMidRound) ∧
    inFlight (run initial [Event.key "r", Event.wait 100, Event.reset]) = 1 ∧
    (run initial [Event.key "r", Event.wait 100, Event.reset]).isProcessing = false ∧
    inFlight (run initial resetMidRound) = 2 ∧
    ¬ inFlight (run initial resetMidRound) ≤ 1 :=
  ⟨⟨resetMidRound, rfl⟩, by decide, by decide, by decide, by decide⟩

/-- C4 at `sixRoundsAcrossResets`: the six rounds in flight after the last reset
each increment `currentRound`, which ends at 7 with `maxRounds` 5, in a reachable
state. -/
theorem sixRoundsAcrossResets_currentRound :
    Reachable (run initial sixRoundsAcrossResets) ∧
    (run initial sixRoundsAcrossResets).currentRound = 7 ∧
    (run initial sixRoundsAcrossResets).maxRounds = 5 ∧
    ¬ (run initial sixRoundsAcrossResets).currentRound ≤
      (run initial sixRoundsAcrossResets).maxRounds + 1 :=
  ⟨⟨sixRoundsAcrossResets, rfl⟩, by decide, by decide, by decide⟩

/-! ## Single flight when no reset falls inside a round -/

/-- Every event other than a reset request in the middle of a round keeps
`SingleFlight`. -/
theorem singleFlight_step (s : State) (e : Event) (h : SingleFlight s)
    (he : midRoundReset s e = false) : SingleFlight (step s e) := by
  have h5 : initial.maxRounds = 5 := rfl
  obtain ⟨hmax, hidle | ⟨r, hpend, hproc, hover, hend, hnot⟩⟩ := h
  · obtain ⟨hpend, hproc, hle, hopen⟩ := hidle
    have hsame : SingleFlight s := ⟨hmax, Or.inl ⟨hpend, hproc, hle, hopen⟩⟩
    cases e with
    | click choice =>
      by_cases hb : s.buttonsDisabled = true
      · have hstep : step s (Event.click choice) = s := by simp [step, hb]
        rw [hstep]; exact hsame
      · by_cases hg : s.gameOver = true
        · have hstep : step s (Event.click choice) = s := by
            simp [step, handleChoiceClick, hg]
          rw [hstep]; exact hsame
        · have hg2 : s.gameOver = false := by simpa using hg
          have hcr := hopen hg2
          refine ⟨?_, Or.inr ?_⟩ <;>
            simp [step, handleChoiceClick, playRound, suspend, hb, hg2, hpend, hproc, hcr, hmax]
          omega
    | key k =>
      by_cases hg : s.gameOver = true
      · have hstep : step s (Event.key k) = s := by
          simp [step, handleKeyNavigation, hg]
        rw [hstep]; exact hsame
      · have hg2 : s.gameOver = false := by simpa using hg
        have hcr := hopen hg2
        cases hk : keyMappings (toLowerCase k) with
        | none =>
          have hstep : step s (Event.key k) = s := by
            simp [step, handleKeyNavigation, hk]
          rw [hstep]; exact hsame
        | some c =>
          refine ⟨?_, Or.inr ?_⟩ <;>
            simp [step, handleKeyNavigation, playRound, suspend, hk, hg2, hpend, hproc, hcr,
              hmax]
          omega
    | reset =>
      refine ⟨hmax, Or.inl ?_⟩
      simp [step, resetGame, hpend, hmax, h5]
    | newGame =>
      refine ⟨hmax, Or.inl ?_⟩
      simp [step, startNewGame, resetGame, hpend, hmax, h5]
    | timer c =>
      have hstep : step s (Event.timer c) = s := by simp [step, hpend, earliest]
      rw [hstep]; exact hsame
    | wait ms =>
      refine ⟨?_, Or.inl ?_⟩
      · simp only [step]
        split_ifs <;> exact hmax
      · simp only [step]
        split_ifs <;> exact ⟨hpend, hproc, hle, hopen⟩
  · have hsame : SingleFlight s := ⟨hmax, Or.inr ⟨r, hpend, hproc, hover, hend, hnot⟩⟩
    cases e with
    | click choice =>
      have hstep : step s (Event.click choice) = s := by
        simp [step, handleChoiceClick, hproc]
      rw [hstep]; exact hsame
    | key k =>
      have hstep : step s (Event.key k) = s := by
        simp [step, handleKeyNavigation, hproc]
      rw [hstep]; exact hsame
    | reset => simp [midRoundReset, hpend] at he
    | newGame => simp [midRoundReset, hpend] at he
    | wait ms =>
      refine ⟨?_, Or.inr ⟨r, ?_⟩⟩
      · simp only [step]
        split_ifs <;> exact hmax
      · simp only [step]
        split_ifs <;> exact ⟨hpend, hproc, hover, hend, hnot⟩
    | timer c =>
      obtain ⟨pc, cc, w, ph, due⟩ := r
      cases ph with
      | thinking =>
        have hcr := hnot (by simp)
        refine ⟨?_, Or.inr ?_⟩ <;>
          simp only [step, hpend, earliest, resume, suspend, updateScores] <;>
          split_ifs <;> simp [hmax, hproc, hover, hcr] <;> omega
      | reveal =>
        have hcr := hnot (by simp)
        cases hshow : showRoundResult w pc cc with
        | none =>
          refine ⟨?_, Or.inl ?_⟩ <;>
            simp [step, hpend, earliest, resume, finallyBlock, hshow, hmax, hover, hcr]
          omega
        | some msg =>
          by_cases hlast : initial.maxRounds < s.currentRound + 1
          · refine ⟨?_, Or.inr ?_⟩ <;>
              simp [step, hpend, earliest, resume, suspend, hshow, hlast, hmax, hproc, hover]
            omega
          · refine ⟨?_, Or.inr ?_⟩ <;>
              simp [step, hpend, earliest, resume, suspend, hshow, hlast, hmax, hproc, hover]
            omega
      | ending =>
        have hcr := hend rfl
        refine ⟨?_, Or.inl ?_⟩ <;>
          simp [step, hpend, earliest, resume, finallyBlock, endGame, hmax, hcr]
      | next =>
        have hcr := hnot (by simp)
        refine ⟨?_, Or.inl ?_⟩ <;>
          simp [step, hpend, earliest, resume, finallyBlock, hmax, hover, hcr]
        omega

/-- As long as no reset request falls inside a round, the input gate does what it
is there for: at most one call of `playRound` is in flight and `currentRound`
stays at most `maxRounds + 1`.  The overlapping rounds of `resetMidRound` and
`sixRoundsAcrossResets` need a reset in the middle of a round. -/
theorem singleFlight_without_midRoundReset (s : State)
    (h : ReachableWithoutMidRoundReset s) :
    inFlight s ≤ 1 ∧ s.currentRound ≤ s.maxRounds + 1 := by
  have hinv : SingleFlight s := by
    induction h with
    | initial => exact ⟨rfl, Or.inl ⟨rfl, rfl, by decide, fun _ => by decide⟩⟩
    | step s e _ he ih => exact singleFlight_step s e ih he
  obtain ⟨-, ⟨hpend, -, hle, -⟩ | ⟨r, hpend, -, -, hend, hnot⟩⟩ := hinv
  · exact ⟨by simp [inFlight, hpend], hle⟩
  · refine ⟨by simp [inFlight, hpend], ?_⟩
    by_cases hph : r.phase = Phase.ending
    · exact le_of_eq (hend hph)
    · exact Nat.le_succ_of_le (hnot hph)

end CyberpunkRPS
